import Mathlib

set_option maxRecDepth 8192

/-!
Shallow embedding of `src/content-loader.ts` (class `ContentLoader`) from the
magentaa11y-mcp-remote repository, together with theorems checking the
natural-language specification against it.

Modelling conventions:
* TypeScript optional string fields become `Option String`; JavaScript string
  truthiness (`!!s`, `if (content)`) becomes "present and non-empty".
* Methods that `throw` become functions into `Except Err _`.
* The `fuse.js` library is an external dependency; its `search` call is
  abstracted as a function parameter, and theorems about `search` assume the
  library's documented contract (bounded result count, scores in [0,1],
  ascending score order) as hypotheses.
* JavaScript `Array.prototype.sort` with the `localeCompare` comparator is
  modelled as a stable insertion sort by `≤` on strings.
* The `content.json` file read plus `JSON.parse` is modelled as an
  `Option ContentStructure` argument (`none` = read or parse failure); a
  document missing a platform key has `none` in that platform slot, which
  makes iteration over it fail, as `for (... of undefined)` does in JS.
-/

/-- The two platforms the loader serves queries for (`'web' | 'native'`). -/
inductive Platform
  | web
  | native
deriving Repr, DecidableEq

/-- The five content formats accepted by `getComponentContent`. -/
inductive ContentFormat
  | gherkin
  | condensed
  | developerNotes
  | androidDeveloperNotes
  | iosDeveloperNotes
deriving Repr, DecidableEq

/-- The string name of a format, as used in `getAvailableFormats`. -/
def formatName : ContentFormat → String
  | .gherkin => "gherkin"
  | .condensed => "condensed"
  | .developerNotes => "developerNotes"
  | .androidDeveloperNotes => "androidDeveloperNotes"
  | .iosDeveloperNotes => "iosDeveloperNotes"

/-- `interface ContentItem` from content-loader.ts. -/
structure ContentItem where
  label : String
  name : String
  type : Option String := none
  generalNotes : Option String := none
  gherkin : Option String := none
  condensed : Option String := none
  criteria : Option String := none
  videos : Option String := none
  androidDeveloperNotes : Option String := none
  iosDeveloperNotes : Option String := none
  developerNotes : Option String := none
  categoryName : Option String := none
  categoryLabel : Option String := none
deriving Repr, DecidableEq

/-- `component[format]` field access used by `getComponentContent`. -/
def ContentItem.getFormat (item : ContentItem) : ContentFormat → Option String
  | .gherkin => item.gherkin
  | .condensed => item.condensed
  | .developerNotes => item.developerNotes
  | .androidDeveloperNotes => item.androidDeveloperNotes
  | .iosDeveloperNotes => item.iosDeveloperNotes

/-- `interface ContentCategory`. -/
structure ContentCategory where
  label : String
  name : String
  children : List ContentItem
deriving Repr, DecidableEq

/-- `interface ContentStructure`. Each platform slot is an `Option` because
the JS cast `JSON.parse(...) as ContentStructure` performs no validation: a
missing key is `undefined`, which later iteration trips over. -/
structure ContentStructure where
  web : Option (List ContentCategory) := none
  native : Option (List ContentCategory) := none
  howToTest : Option (List ContentCategory) := none
deriving Repr, DecidableEq

/-- `this.content[platform]` access. -/
def ContentStructure.get (c : ContentStructure) : Platform → Option (List ContentCategory)
  | .web => c.web
  | .native => c.native

/-- `interface ComponentMetadata`. -/
structure ComponentMetadata where
  name : String
  displayName : String
  category : String
  platform : Platform
  hasGherkin : Bool
  hasCondensed : Bool
  hasDeveloperNotes : Bool
  hasAndroidNotes : Bool
  hasIOSNotes : Bool
deriving Repr, DecidableEq

/-- `interface SearchMatch`. -/
structure SearchMatch where
  field : String
  snippet : String
deriving Repr, DecidableEq

/-- `interface SearchResult`; `relevance` is modelled as a rational. -/
structure SearchResult where
  component : String
  displayName : String
  category : String
  categoryLabel : String
  «matches» : List SearchMatch
  relevance : ℚ
deriving Repr, DecidableEq

/-- One entry of `result.matches` as returned by fuse.js; `key` and `value`
are optional in the fuse.js result type. -/
structure FuseMatch where
  key : Option String := none
  value : Option String := none
deriving Repr, DecidableEq

/-- One fuse.js search result: the indexed item plus optional score and
optional per-field match data (present only under the corresponding fuse
options). -/
structure FuseResult where
  item : ContentItem
  score : Option ℚ := none
  «matches» : Option (List FuseMatch) := none
deriving Repr, DecidableEq

/-- Errors thrown by `ContentLoader` methods.
`notInitialized` covers "Content not loaded" / "Search index not initialized";
`typeError` models the JS `TypeError` raised by iterating `undefined` when a
platform key is missing from the parsed document. -/
inductive Err
  | notInitialized
  | notFound (componentName : String)
  | formatUnavailable (format componentName : String)
  | loadError
  | typeError
deriving Repr, DecidableEq

/-- The mutable fields of `class ContentLoader`. The two fuse indices are
modelled by the flattened item lists they are built over. -/
structure LoaderState where
  content : Option ContentStructure := none
  webSearchIndex : Option (List ContentItem) := none
  nativeSearchIndex : Option (List ContentItem) := none
  indexed : Bool := false
deriving Repr, DecidableEq

/-- A freshly constructed `ContentLoader` (all fields at their initializers). -/
def freshLoader : LoaderState := {}

/-- JS string truthiness of an optional string field: `!!x` is `true` exactly
when the field is present and non-empty. -/
def strTruthy : Option String → Bool
  | none => false
  | some s => !s.isEmpty

/-- The item decoration performed when flattening (`{ ...item, categoryName,
categoryLabel }`), used by `createSearchIndex` and `getComponent`. -/
def decorate (cat : ContentCategory) (item : ContentItem) : ContentItem :=
  { item with categoryName := some cat.name, categoryLabel := some cat.label }

/-- The flattened, category-annotated item collection that
`createSearchIndex` hands to the fuse.js constructor. -/
def indexItems (cats : List ContentCategory) : List ContentItem :=
  cats.flatMap fun cat => cat.children.map (decorate cat)

/-- `createSearchIndex(platform)` applied to a parsed document: fails (JS
`TypeError`) when the platform key is missing, otherwise yields the flattened
item list the index is built over. -/
def createSearchIndex (c : ContentStructure) (p : Platform) : Except Err (List ContentItem) :=
  match c.get p with
  | none => .error .typeError
  | some cats => .ok (indexItems cats)

/-- The body of `initialize` after the file has been read and parsed:
assign `this.content`, build the web index, build the native index, set
`this.indexed`. Assignments happen in this order, so a failure partway
through leaves the earlier assignments in place. -/
def commitInit (doc : ContentStructure) (st : LoaderState) : LoaderState :=
  let st1 := { st with content := some doc }
  match createSearchIndex doc .web with
  | .error _ => st1
  | .ok wi =>
    let st2 := { st1 with webSearchIndex := some wi }
    match createSearchIndex doc .native with
    | .error _ => st2
    | .ok ni => { st2 with nativeSearchIndex := some ni, indexed := true }

/-- `initialize()`: early-returns when already indexed; otherwise reads and
parses the document (`none` = read/parse failure) and runs the assignment
sequence. Any failure is rethrown as the single load error
("Failed to initialize content..."). -/
def initLoader (st : LoaderState) (doc? : Option ContentStructure) :
    LoaderState × Except Err Unit :=
  if st.indexed then (st, .ok ())
  else
    match doc? with
    | none => (st, .error .loadError)
    | some doc =>
      let st' := commitInit doc st
      (st', if st'.indexed then .ok () else .error .loadError)

/-- The metadata record `listComponents` builds for one item. -/
def mkMetadata (p : Platform) (cat : ContentCategory) (item : ContentItem) : ComponentMetadata :=
  { name := item.name
    displayName := item.label
    category := cat.name
    platform := p
    hasGherkin := strTruthy item.gherkin
    hasCondensed := strTruthy item.condensed
    hasDeveloperNotes := strTruthy item.developerNotes
    hasAndroidNotes := strTruthy item.androidDeveloperNotes
    hasIOSNotes := strTruthy item.iosDeveloperNotes }

/-- The category filter of `listComponents`: `if (category && cat.name !==
category) continue` — an empty-string filter is falsy in JS and filters
nothing. -/
def catIncluded (filter : Option String) (cat : ContentCategory) : Bool :=
  match filter with
  | none => true
  | some q => q.isEmpty || cat.name == q

/-- The comparator `(a, b) => a.name.localeCompare(b.name)`, as an order. -/
def byName (a b : ComponentMetadata) : Prop := a.name ≤ b.name

instance : DecidableRel byName := fun a b => inferInstanceAs (Decidable (a.name ≤ b.name))

instance : IsTotal ComponentMetadata byName := ⟨fun a b => le_total a.name b.name⟩

instance : IsTrans ComponentMetadata byName := ⟨fun _ _ _ h h' => le_trans h h'⟩

/-- `listComponents(platform, category?)`. -/
def listComponents (st : LoaderState) (p : Platform) (category : Option String) :
    Except Err (List ComponentMetadata) :=
  match st.content with
  | none => .error .notInitialized
  | some c =>
    match c.get p with
    | none => .error .typeError
    | some cats =>
      let components := cats.flatMap fun cat =>
        if catIncluded category cat then cat.children.map (mkMetadata p cat) else []
      .ok (components.insertionSort byName)

/-- `getCategories(platform)`. -/
def getCategories (st : LoaderState) (p : Platform) : Except Err (List String) :=
  match st.content with
  | none => .error .notInitialized
  | some c =>
    match c.get p with
    | none => .error .typeError
    | some cats => .ok ((cats.map (fun cat => cat.name)).insertionSort (· ≤ ·))

/-- The category scan of `getComponent`: the first category whose `children`
contains the name wins, and its match is decorated with the category
identity. -/
def findComponent : List ContentCategory → String → Option ContentItem
  | [], _ => none
  | cat :: rest, n =>
    match cat.children.find? (fun item => item.name == n) with
    | some component => some (decorate cat component)
    | none => findComponent rest n

/-- `getComponent(platform, componentName)`. -/
def getComponent (st : LoaderState) (p : Platform) (componentName : String) :
    Except Err ContentItem :=
  match st.content with
  | none => .error .notInitialized
  | some c =>
    match c.get p with
    | none => .error .typeError
    | some cats =>
      match findComponent cats componentName with
      | some component => .ok component
      | none => .error (.notFound componentName)

/-- `getComponentContent(platform, componentName, format)`: looks the
component up, then requires the field to be truthy (present and non-empty). -/
def getComponentContent (st : LoaderState) (p : Platform) (componentName : String)
    (format : ContentFormat) : Except Err String :=
  match getComponent st p componentName with
  | .error e => .error e
  | .ok component =>
    match component.getFormat format with
    | none => .error (.formatUnavailable (formatName format) componentName)
    | some s =>
      if s.isEmpty then .error (.formatUnavailable (formatName format) componentName)
      else .ok s

/-- Lower-case a character list, modelling `String.prototype.toLowerCase`. -/
def lowerChars (s : List Char) : List Char := s.map Char.toLower

/-- `String.prototype.indexOf` on character lists: the first position where
the query occurs (`some 0` for the empty query, as in JS). -/
def firstIndexOf : List Char → List Char → Option Nat
  | t, q =>
    if q.isPrefixOf t then some 0
    else
      match t with
      | [] => none
      | _ :: rest => (firstIndexOf rest q).map (· + 1)

/-- `extractSnippet(text, query, maxLength)` on character lists.
`start = max(0, index - 50)` is natural-number subtraction here. -/
def extractSnippetChars (text query : List Char) (maxLength : Nat) : List Char :=
  match firstIndexOf (lowerChars text) (lowerChars query) with
  | none => text.take maxLength
  | some index =>
    let start := index - 50
    let stop := min text.length (index + query.length + 150)
    let snippet := (text.drop start).take (stop - start)
    let snippet := if 0 < start then '.' :: '.' :: '.' :: snippet else snippet
    if stop < text.length then snippet ++ ['.', '.', '.'] else snippet

/-- `extractSnippet` on strings. -/
def extractSnippet (text query : String) (maxLength : Nat) : String :=
  (extractSnippetChars text.toList query.toList maxLength).asString

/-- `result.score || 0`: a missing (or zero) score counts as 0. -/
def scoreVal (r : FuseResult) : ℚ := r.score.getD 0

/-- The per-result `matches` extraction inside `search`: entries whose `key`
and `value` are both truthy yield a field/snippet pair. -/
def mapFuseMatches (query : String) (ms : List FuseMatch) : List SearchMatch :=
  ms.filterMap fun m =>
    match m.value, m.key with
    | some v, some k =>
      if v.isEmpty || k.isEmpty then none
      else some { field := k, snippet := extractSnippet v query 200 }
    | _, _ => none

/-- The mapping `search` applies to each fuse.js result. -/
def mapSearchResult (query : String) (r : FuseResult) : SearchResult :=
  { component := r.item.name
    displayName := r.item.label
    category := r.item.categoryName.getD ""
    categoryLabel := r.item.categoryLabel.getD ""
    «matches» :=
      match r.«matches» with
      | none => []
      | some ms => mapFuseMatches query ms
    relevance := 1 - scoreVal r }

/-- `platform === 'web' ? this.webSearchIndex : this.nativeSearchIndex`. -/
def searchIndexOf (st : LoaderState) : Platform → Option (List ContentItem)
  | .web => st.webSearchIndex
  | .native => st.nativeSearchIndex

/-- `search(platform, query, maxResults)`; the fuse.js call
`searchIndex.search(query, { limit: maxResults })` is the abstracted
parameter `fuse`, applied to the items the index was built over. -/
def search (st : LoaderState) (p : Platform) (query : String) (maxResults : Nat)
    (fuse : List ContentItem → String → Nat → List FuseResult) :
    Except Err (List SearchResult) :=
  match searchIndexOf st p with
  | none => .error .notInitialized
  | some items => .ok ((fuse items query maxResults).map (mapSearchResult query))

/-- `getSimilarComponents(platform, componentName, limit)`; the throwaway
fuse.js index over the metadata list is the abstracted parameter `fuzzy`. -/
def getSimilarComponents (st : LoaderState) (p : Platform) (componentName : String)
    (limit : Nat) (fuzzy : List ComponentMetadata → String → List ComponentMetadata) :
    Except Err (List String) :=
  match listComponents st p none with
  | .error e => .error e
  | .ok components =>
    .ok (((fuzzy components componentName).take limit).map (fun r => r.name))

/-- The format list `getAvailableFormats` assembles from the presence flags. -/
def formatFlagsList (c : ComponentMetadata) : List String :=
  (if c.hasGherkin then ["gherkin"] else []) ++
    ((if c.hasCondensed then ["condensed"] else []) ++
      ((if c.hasDeveloperNotes then ["developerNotes"] else []) ++
        ((if c.hasAndroidNotes then ["androidDeveloperNotes"] else []) ++
          (if c.hasIOSNotes then ["iosDeveloperNotes"] else []))))

/-- `getAvailableFormats(platform, componentName)`: the whole body is wrapped
in `try { ... } catch { return [] }`, so every failure — including an
uninitialized loader — is swallowed into the empty list. -/
def getAvailableFormats (st : LoaderState) (p : Platform) (componentName : String) :
    List String :=
  match listComponents st p none with
  | .error _ => []
  | .ok components =>
    match components.find? (fun c => c.name == componentName) with
    | none => []
    | some component => formatFlagsList component

/-! ### Concurrency model for double initialization

JavaScript runs `initialize` on a single-threaded event loop: code between
`await` points is atomic, and interleaving happens only at the `await`.
One in-flight call is therefore a two-step program: step 0 is the
synchronous `if (this.indexed) return;` check followed by starting the file
read (one actual content load) and suspending; step 1 is the continuation
after the read — parse, assign, build indices, set the flag — which runs
atomically. A schedule is the order in which the event loop advances the
two calls. -/

/-- Two concurrent `initialize()` calls plus a counter of actual content
loads (file reads) performed so far. `pc` values: 0 = not started,
1 = suspended at the `await`, 2 = returned. -/
structure InitSystem where
  loader : LoaderState
  loads : Nat
  pc1 : Nat
  pc2 : Nat
deriving Repr, DecidableEq

/-- Program counter of the chosen call. -/
def InitSystem.pc (sys : InitSystem) (first : Bool) : Nat :=
  if first then sys.pc1 else sys.pc2

/-- Set the program counter of the chosen call. -/
def InitSystem.setPc (sys : InitSystem) (first : Bool) (v : Nat) : InitSystem :=
  if first then { sys with pc1 := v } else { sys with pc2 := v }

/-- Advance the chosen call by one atomic step. -/
def stepInit (doc : ContentStructure) (sys : InitSystem) (first : Bool) : InitSystem :=
  match sys.pc first with
  | 0 =>
    if sys.loader.indexed then sys.setPc first 2
    else { sys.setPc first 1 with loads := sys.loads + 1 }
  | 1 => { sys.setPc first 2 with loader := commitInit doc sys.loader }
  | _ => sys

/-- Run a schedule of event-loop turns. -/
def runInit (doc : ContentStructure) (schedule : List Bool) (sys : InitSystem) : InitSystem :=
  schedule.foldl (stepInit doc) sys

/-- Both calls pending on a fresh loader, no loads performed yet. -/
def initSystem0 : InitSystem := { loader := freshLoader, loads := 0, pc1 := 0, pc2 := 0 }

/-- Sequential double call: the first call runs to completion, then the
second performs its check. -/
def seqSchedule : List Bool := [true, true, false]

/-- Concurrent double call: both calls pass the `indexed` check before
either continuation has run. -/
def racySchedule : List Bool := [true, false, true, false]

/-! ### Sample corpus used by witnesses and counterexamples -/

/-- A sample component with only the gherkin format present. -/
def itemButton : ContentItem :=
  { label := "Button", name := "button", gherkin := some "Given a button..." }

/-- A sample category holding `itemButton`. -/
def catControls : ContentCategory :=
  { label := "Controls", name := "controls", children := [itemButton] }

/-- A well-formed sample document. -/
def docFull : ContentStructure := { web := some [catControls], native := some [] }

/-- The loader after successfully initializing on `docFull`. -/
def readyState : LoaderState := (initLoader freshLoader (some docFull)).1

/-- A document whose `native` key is missing: JSON-parses fine, but building
the native index trips over `undefined`. -/
def docWebOnly : ContentStructure := { web := some [catControls] }

/-- Two distinct components sharing the name `x` in two categories. -/
def itemX1 : ContentItem := { label := "First X", name := "x" }

/-- Second component named `x`, in a later category. -/
def itemX2 : ContentItem := { label := "Second X", name := "x" }

/-- First category containing an `x`. -/
def catA : ContentCategory := { label := "Cat A", name := "cat-a", children := [itemX1] }

/-- Second category containing an `x`. -/
def catB : ContentCategory := { label := "Cat B", name := "cat-b", children := [itemX2] }

/-- A document where the component name `x` appears in two web categories. -/
def docDup : ContentStructure := { web := some [catA, catB], native := some [] }

/-- The loader after successfully initializing on `docDup`. -/
def dupState : LoaderState := (initLoader freshLoader (some docDup)).1

/-! ### C4 -/

/-- C4 counterexample: on a fresh (uninitialized) loader,
`getAvailableFormats` returns the empty list — a value, not a
`NotInitialized` failure — even though the `listComponents` call inside it
does fail with `NotInitialized`; the `try/catch` swallows the error. -/
theorem c4_getAvailableFormats_no_failure :
    getAvailableFormats freshLoader .web "button" = [] ∧
    listComponents freshLoader .web none = .error .notInitialized :=
  ⟨rfl, rfl⟩

/-- C4 (amended): in the uninitialized state every public operation other
than `initialize` fails with `NotInitialized`, except `getAvailableFormats`,
which swallows the failure and returns the empty list. -/
theorem c4_uninitialized_behavior (p : Platform) (category? : Option String)
    (n q : String) (f : ContentFormat) (k limit : Nat)
    (fuse : List ContentItem → String → Nat → List FuseResult)
    (fuzzy : List ComponentMetadata → String → List ComponentMetadata) :
    listComponents freshLoader p category? = .error .notInitialized ∧
    getCategories freshLoader p = .error .notInitialized ∧
    getComponent freshLoader p n = .error .notInitialized ∧
    getComponentContent freshLoader p n f = .error .notInitialized ∧
    search freshLoader p q k fuse = .error .notInitialized ∧
    getSimilarComponents freshLoader p n limit fuzzy = .error .notInitialized ∧
    getAvailableFormats freshLoader p n = [] := by
  cases p <;> exact ⟨rfl, rfl, rfl, rfl, rfl, rfl, rfl⟩

/-! ### C5 -/

/-- C5 counterexample: under the interleaving where both calls pass the
`indexed` check before either continuation runs, both calls complete and
two actual content loads are performed — not at most one. -/
theorem c5_concurrent_double_load :
    (runInit docFull racySchedule initSystem0).loads = 2 ∧
    (runInit docFull racySchedule initSystem0).pc1 = 2 ∧
    (runInit docFull racySchedule initSystem0).pc2 = 2 ∧
    ¬ (runInit docFull racySchedule initSystem0).loads ≤ 1 := by
  decide

/-- C5 (amended): calling `initialize` twice sequentially performs exactly
one content load, but two concurrent calls interleaved at the `await` each
perform their own load (two loads). In both cases the final loader state is
the same as after a single successful initialization, so subsequent query
results are identical regardless of call count. -/
theorem c5_initLoader_idempotence (doc : ContentStructure)
    (w nv : List ContentCategory) (hw : doc.web = some w) (hn : doc.native = some nv) :
    (runInit doc seqSchedule initSystem0).loads = 1 ∧
    (runInit doc racySchedule initSystem0).loads = 2 ∧
    (runInit doc seqSchedule initSystem0).loader = commitInit doc freshLoader ∧
    (runInit doc racySchedule initSystem0).loader = commitInit doc freshLoader ∧
    (runInit doc seqSchedule initSystem0).loader.indexed = true := by
  have hcommit : ∀ st : LoaderState, commitInit doc st =
      { st with
        content := some doc
        webSearchIndex := some (indexItems w)
        nativeSearchIndex := some (indexItems nv)
        indexed := true } := by
    intro st
    simp [commitInit, createSearchIndex, ContentStructure.get, hw, hn]
  refine ⟨?_, ?_, ?_, ?_, ?_⟩ <;>
    simp [runInit, seqSchedule, racySchedule, stepInit, InitSystem.pc, InitSystem.setPc,
      initSystem0, freshLoader, hcommit]

/-- C5 amended witness at the sample document. -/
theorem c5_initLoader_idempotence_witness :
    (runInit docFull seqSchedule initSystem0).loads = 1 ∧
    (runInit docFull racySchedule initSystem0).loads = 2 ∧
    (runInit docFull seqSchedule initSystem0).loader = commitInit docFull freshLoader ∧
    (runInit docFull racySchedule initSystem0).loader = commitInit docFull freshLoader ∧
    (runInit docFull seqSchedule initSystem0).loader.indexed = true :=
  c5_initLoader_idempotence docFull [catControls] [] rfl rfl

/-! ### C6 -/

/-- C6 counterexample: initializing on a document whose `native` key is
missing fails with the load error, yet afterwards `listComponents` for the
web platform succeeds from the partially populated store. -/
theorem c6_partial_state_observable :
    (initLoader freshLoader (some docWebOnly)).2 = .error .loadError ∧
    listComponents (initLoader freshLoader (some docWebOnly)).1 .web none =
      .ok [mkMetadata .web catControls itemButton] :=
  ⟨rfl, rfl⟩

/-- C6 (amended): if `initialize` fails before the document is assigned
(read or parse failure), the loader is unchanged and every query still fails
`NotInitialized`; but if it fails after the document has been assigned
(native index build failure), the partially populated store is observable —
`listComponents` on the populated web platform succeeds. -/
theorem c6_initLoader_failure_states :
    (∀ p (category? : Option String) n,
      initLoader freshLoader none = (freshLoader, .error .loadError) ∧
      listComponents freshLoader p category? = .error .notInitialized ∧
      getCategories freshLoader p = .error .notInitialized ∧
      getComponent freshLoader p n = .error .notInitialized) ∧
    (∀ doc w, doc.web = some w → doc.native = none →
      (initLoader freshLoader (some doc)).2 = .error .loadError ∧
      (initLoader freshLoader (some doc)).1.content = some doc ∧
      listComponents (initLoader freshLoader (some doc)).1 .web none =
        .ok ((w.flatMap fun cat => cat.children.map (mkMetadata .web cat)).insertionSort
          byName)) := by
  constructor
  · intro p category? n
    exact ⟨rfl, by cases p <;> exact ⟨rfl, rfl, rfl⟩⟩
  · intro doc w hw hn
    refine ⟨?_, ?_, ?_⟩ <;>
      simp [initLoader, commitInit, createSearchIndex, ContentStructure.get, hw, hn,
        freshLoader, listComponents, catIncluded]

/-- C6 amended witness at the sample web-only document. -/
theorem c6_initLoader_failure_states_witness :
    (initLoader freshLoader (some docWebOnly)).2 = .error .loadError ∧
    (initLoader freshLoader (some docWebOnly)).1.content = some docWebOnly ∧
    listComponents (initLoader freshLoader (some docWebOnly)).1 .web none =
      .ok (([catControls].flatMap fun cat => cat.children.map (mkMetadata .web cat)).insertionSort
        byName) :=
  c6_initLoader_failure_states.2 docWebOnly [catControls] rfl rfl

/-! ### C9 -/

/-- Skipping categories with no match: `findComponent` over a prefix of
categories none of which contains the name. -/
theorem findComponent_append_none (pre rest : List ContentCategory) (n : String)
    (hpre : ∀ ca ∈ pre, ca.children.find? (fun item => item.name == n) = none) :
    findComponent (pre ++ rest) n = findComponent rest n := by
  induction pre with
  | nil => rfl
  | cons ca pre ih =>
    have hca := hpre ca (List.mem_cons_self ca pre)
    simp only [List.cons_append, findComponent, hca]
    exact ih fun ca' h => hpre ca' (List.mem_cons_of_mem ca h)

/-- C9 counterexample: with the name `x` in both `cat-a` (first) and `cat-b`
(last), `getComponent` returns the record from the first category, which
differs from the last category's record — so last-write-wins is false. -/
theorem c9_first_not_last :
    getComponent dupState .web "x" = .ok (decorate catA itemX1) ∧
    decorate catA itemX1 ≠ decorate catB itemX2 :=
  ⟨rfl, by decide⟩

/-- C9 (amended): when a component name appears in several categories of one
platform, `getComponent` returns the matching record from the first
category, in the platform's category order, that contains the name. -/
theorem c9_getComponent_first_wins (st : LoaderState) (c : ContentStructure)
    (cats pre post : List ContentCategory) (cat1 : ContentCategory) (p : Platform)
    (n : String) (it1 : ContentItem)
    (hc : st.content = some c) (hp : c.get p = some cats)
    (hcats : cats = pre ++ cat1 :: post)
    (hpre : ∀ ca ∈ pre, ca.children.find? (fun item => item.name == n) = none)
    (hfound : cat1.children.find? (fun item => item.name == n) = some it1) :
    getComponent st p n = .ok (decorate cat1 it1) := by
  simp only [getComponent, hc, hp, hcats, findComponent_append_none pre _ n hpre,
    findComponent, hfound]

/-- C9 amended witness at the duplicated-name document. -/
theorem c9_getComponent_first_wins_witness :
    getComponent dupState .web "x" = .ok (decorate catA itemX1) :=
  c9_getComponent_first_wins dupState docDup [catA, catB] [] [catB] catA .web "x" itemX1
    (by decide) (by decide) rfl (by simp) (by decide)

/-! ### C2 -/

/-- A found component's `name` field equals the requested name. -/
theorem findComponent_name (cats : List ContentCategory) (n : String) (it : ContentItem)
    (h : findComponent cats n = some it) : it.name = n := by
  induction cats with
  | nil => simp [findComponent] at h
  | cons cat rest ih =>
    rw [findComponent] at h
    cases hfind : cat.children.find? (fun item => item.name == n) with
    | some comp =>
      rw [hfind] at h
      cases h
      have := List.find?_some hfind
      simpa [decorate] using this
    | none =>
      rw [hfind] at h
      exact ih h

/-- `findComponent` succeeds exactly when some category contains the name. -/
theorem findComponent_isSome_iff (cats : List ContentCategory) (n : String) :
    (findComponent cats n).isSome ↔
      ∃ cat ∈ cats, ∃ item ∈ cat.children, item.name = n := by
  induction cats with
  | nil => simp [findComponent]
  | cons cat rest ih =>
    rw [findComponent]
    cases hfind : cat.children.find? (fun item => item.name == n) with
    | some comp =>
      have hmem := List.mem_of_find?_eq_some hfind
      have hname := List.find?_some hfind
      simp only [beq_iff_eq] at hname
      simp only [Option.isSome_some, true_iff]
      exact ⟨cat, List.mem_cons_self cat rest, comp, hmem, hname⟩
    | none =>
      have hnone := List.find?_eq_none.mp hfind
      simp only [beq_iff_eq] at hnone
      rw [ih]
      constructor
      · rintro ⟨ca, hca, item, hit, hn⟩
        exact ⟨ca, List.mem_cons_of_mem cat hca, item, hit, hn⟩
      · rintro ⟨ca, hca, item, hit, hn⟩
        rcases List.mem_cons.mp hca with rfl | hca'
        · exact absurd hn (hnone item hit)
        · exact ⟨ca, hca', item, hit, hn⟩

/-- C2: once the corpus is loaded, `getComponent(p, n)` succeeds iff some
category of platform `p` contains a component named `n`; on success the
returned record's `name` field equals `n`, and on failure it fails with
`NotFound`. -/
theorem c2_getComponent_found_iff (st : LoaderState) (c : ContentStructure)
    (cats : List ContentCategory) (p : Platform) (n : String)
    (hc : st.content = some c) (hp : c.get p = some cats) :
    ((∃ cat ∈ cats, ∃ item ∈ cat.children, item.name = n) →
      ∃ it, getComponent st p n = .ok it ∧ it.name = n) ∧
    (¬ (∃ cat ∈ cats, ∃ item ∈ cat.children, item.name = n) →
      getComponent st p n = .error (.notFound n)) := by
  have hiff := findComponent_isSome_iff cats n
  constructor
  · intro hex
    rcases Option.isSome_iff_exists.mp (hiff.mpr hex) with ⟨it, hit⟩
    refine ⟨it, ?_, findComponent_name cats n it hit⟩
    simp [getComponent, hc, hp, hit]
  · intro hnex
    have : findComponent cats n = none := by
      cases hfc : findComponent cats n with
      | none => rfl
      | some it => exact absurd (hiff.mp (by simp [hfc])) hnex
    simp [getComponent, hc, hp, this]

/-- C2 witness: on the loaded sample corpus, `button` is found with the right
name and `missing-button` fails `NotFound`. -/
theorem c2_getComponent_found_iff_witness :
    ((∃ cat ∈ [catControls], ∃ item ∈ cat.children, item.name = "button") →
      ∃ it, getComponent readyState .web "button" = .ok it ∧ it.name = "button") ∧
    (¬ (∃ cat ∈ [catControls], ∃ item ∈ cat.children, item.name = "missing-button") →
      getComponent readyState .web "missing-button" = .error (.notFound "missing-button")) :=
  ⟨(c2_getComponent_found_iff readyState docFull [catControls] .web "button" rfl rfl).1,
    (c2_getComponent_found_iff readyState docFull [catControls] .web "missing-button"
      rfl rfl).2⟩

/-! ### C7 -/

/-- On a loaded state, `listComponents` with no filter is the sorted
flattening of all categories' children. -/
theorem listComponents_loaded (st : LoaderState) (c : ContentStructure)
    (cats : List ContentCategory) (p : Platform)
    (hc : st.content = some c) (hp : c.get p = some cats) :
    listComponents st p none =
      .ok ((cats.flatMap fun cat => cat.children.map (mkMetadata p cat)).insertionSort
        byName) := by
  simp [listComponents, hc, hp, catIncluded]

/-- C7: `listComponents(p)` with no category filter returns a list sorted
ascending by component name whose length is the total component count across
all categories of platform `p`. -/
theorem c7_listComponents_sorted_length (st : LoaderState) (c : ContentStructure)
    (cats : List ContentCategory) (p : Platform)
    (hc : st.content = some c) (hp : c.get p = some cats) :
    ∃ comps, listComponents st p none = .ok comps ∧
      List.Sorted byName comps ∧
      comps.length = (cats.map fun cat => cat.children.length).sum := by
  refine ⟨_, listComponents_loaded st c cats p hc hp, ?_, ?_⟩
  · exact List.sorted_insertionSort byName _
  · rw [(List.perm_insertionSort byName _).length_eq, List.length_flatMap]
    simp [Function.comp_def]

/-- C7 witness at the loaded sample corpus. -/
theorem c7_listComponents_sorted_length_witness :
    ∃ comps, listComponents readyState .web none = .ok comps ∧
      List.Sorted byName comps ∧
      comps.length = ([catControls].map fun cat => cat.children.length).sum :=
  c7_listComponents_sorted_length readyState docFull [catControls] .web rfl rfl

/-! ### C1 -/

/-- C1: once initialized, `search(p, q, k)` returns at most `k` results,
each with relevance in [0,1], sorted descending by relevance. The fuse.js
call is assumed to satisfy its documented contract: at most `k` results,
scores (when reported) in [0,1], ascending score order. -/
theorem c1_search_bounded_sorted (st : LoaderState) (p : Platform) (q : String) (k : Nat)
    (fuse : List ContentItem → String → Nat → List FuseResult) (items : List ContentItem)
    (hidx : searchIndexOf st p = some items)
    (hlen : (fuse items q k).length ≤ k)
    (hscore : ∀ r ∈ fuse items q k, ∀ s, r.score = some s → 0 ≤ s ∧ s ≤ 1)
    (hsort : List.Sorted (fun a b => scoreVal a ≤ scoreVal b) (fuse items q k)) :
    ∃ out, search st p q k fuse = .ok out ∧
      out.length ≤ k ∧
      (∀ r ∈ out, 0 ≤ r.relevance ∧ r.relevance ≤ 1) ∧
      List.Sorted (fun a b => b.relevance ≤ a.relevance) out := by
  have hout : search st p q k fuse = .ok ((fuse items q k).map (mapSearchResult q)) := by
    simp [search, hidx]
  refine ⟨_, hout, ?_, ?_, ?_⟩
  · simpa using hlen
  · intro r hr
    rcases List.mem_map.mp hr with ⟨fr, hfr, rfl⟩
    have hs : 0 ≤ scoreVal fr ∧ scoreVal fr ≤ 1 := by
      cases hsc : fr.score with
      | none => simp [scoreVal, hsc]
      | some s =>
        have := hscore fr hfr s hsc
        simpa [scoreVal, hsc] using this
    have h0 : (mapSearchResult q fr).relevance = 1 - scoreVal fr := rfl
    rw [h0]
    exact ⟨by linarith [hs.2], by linarith [hs.1]⟩
  · have : List.Pairwise (fun a b : SearchResult => b.relevance ≤ a.relevance)
        ((fuse items q k).map (mapSearchResult q)) := by
      rw [List.pairwise_map]
      refine hsort.imp ?_
      intro a b hab
      show (mapSearchResult q b).relevance ≤ (mapSearchResult q a).relevance
      have ha : (mapSearchResult q a).relevance = 1 - scoreVal a := rfl
      have hb : (mapSearchResult q b).relevance = 1 - scoreVal b := rfl
      rw [ha, hb]
      linarith
    exact this

/-- A stubbed fuse.js search yielding two results with unreported scores. -/
def fuseStub : List ContentItem → String → Nat → List FuseResult :=
  fun _ _ _ => [{ item := decorate catControls itemButton }, { item := itemX1 }]

/-- C1 witness: the search contract instantiated on the loaded sample corpus
and the stubbed fuse.js call. -/
theorem c1_search_bounded_sorted_witness :
    ∃ out, search readyState .web "button" 2 fuseStub = .ok out ∧
      out.length ≤ 2 ∧
      (∀ r ∈ out, 0 ≤ r.relevance ∧ r.relevance ≤ 1) ∧
      List.Sorted (fun a b => b.relevance ≤ a.relevance) out :=
  c1_search_bounded_sorted readyState .web "button" 2 fuseStub (indexItems [catControls])
    rfl (by simp [fuseStub]) (by simp [fuseStub])
    (by simp [fuseStub, List.pairwise_cons, scoreVal])

/-! ### C8 -/

/-- A 300-character text whose match for the 5-character query sits at
index 100: the window is 205 characters plus two ellipsis markers. -/
def snippetText : String :=
  (List.replicate 100 'a' ++ 'b' :: 'c' :: 'd' :: 'e' :: 'f' :: List.replicate 195 'a').asString

/-- C8 counterexample: the snippet for a 5-character query found mid-text is
211 characters (50 leading + 5 match + 150 trailing + two 3-character
markers), exceeding 200 even after discounting both markers. -/
theorem c8_snippet_exceeds_200 :
    (extractSnippet snippetText "bcdef" 200).length = 211 ∧
    ¬ (extractSnippet snippetText "bcdef" 200).length ≤ 206 := by
  decide

/-- C8 (amended): snippet extraction finds the first case-insensitive
occurrence of the query and returns a window of 50 characters of leading
context, the match, and up to 150 of trailing context — at most
200 + |query| characters — with a 3-character ellipsis marker at each end
that is truncated relative to the full field, for a total of at most
|query| + 206 characters; if the query does not occur, it returns the first
200 characters of the text. -/
theorem c8_extractSnippet_spec (text query : String) :
    (firstIndexOf (lowerChars text.toList) (lowerChars query.toList) = none →
      extractSnippet text query 200 = (text.toList.take 200).asString) ∧
    (∀ index, firstIndexOf (lowerChars text.toList) (lowerChars query.toList) = some index →
      (extractSnippet text query 200).toList =
        (if 0 < index - 50 then ['.', '.', '.'] else []) ++
          ((text.toList.drop (index - 50)).take
            (min text.toList.length (index + query.toList.length + 150) - (index - 50))) ++
          (if min text.toList.length (index + query.toList.length + 150) < text.toList.length
            then ['.', '.', '.'] else [])) ∧
    (extractSnippet text query 200).length ≤ query.length + 206 := by
  have hlenAs : ∀ l : List Char, (l.asString).length = l.length := fun _ => rfl
  have htoAs : ∀ l : List Char, (l.asString).toList = l := fun _ => rfl
  refine ⟨?_, ?_, ?_⟩
  · intro h
    simp only [extractSnippet, extractSnippetChars, h]
  · intro index h
    simp only [extractSnippet, extractSnippetChars, h, htoAs]
    split_ifs <;> simp
  · cases h : firstIndexOf (lowerChars text.toList) (lowerChars query.toList) with
    | none =>
      simp only [extractSnippet, extractSnippetChars, h, hlenAs]
      have := List.length_take 200 text.toList
      omega
    | some index =>
      simp only [extractSnippet, extractSnippetChars, h, hlenAs]
      have h1 : min text.toList.length (index + query.toList.length + 150) ≤
          index + query.toList.length + 150 := Nat.min_le_right _ _
      generalize hM : min text.toList.length (index + query.toList.length + 150) = M at h1 ⊢
      have hq : query.length = query.toList.length := rfl
      have hcore : ((text.toList.drop (index - 50)).take (M - (index - 50))).length ≤
          query.toList.length + 200 :=
        le_trans (List.length_take_le _ _) (by omega)
      split_ifs <;>
        (try simp only [List.length_append, List.length_cons, List.length_nil]) <;>
        omega

/-- C8 witness: the fallback branch on a query that does not occur, and the
length bound at the counterexample text. -/
theorem c8_extractSnippet_spec_witness :
    extractSnippet "hello world" "zzz" 200 = ("hello world".toList.take 200).asString ∧
    (extractSnippet snippetText "bcdef" 200).length ≤ "bcdef".length + 206 :=
  ⟨(c8_extractSnippet_spec "hello world" "zzz").1 (by decide),
    (c8_extractSnippet_spec snippetText "bcdef").2.2⟩

/-! ### C3 and C10 -/

/-- The unsorted metadata list `listComponents` builds with no filter. -/
def flatMeta (p : Platform) (cats : List ContentCategory) : List ComponentMetadata :=
  cats.flatMap fun cat => cat.children.map (mkMetadata p cat)

/-- The presence flag of `listComponents` metadata for one format. -/
def hasFormatFlag (m : ComponentMetadata) : ContentFormat → Bool
  | .gherkin => m.hasGherkin
  | .condensed => m.hasCondensed
  | .developerNotes => m.hasDeveloperNotes
  | .androidDeveloperNotes => m.hasAndroidNotes
  | .iosDeveloperNotes => m.hasIOSNotes

/-- The flags of the metadata built for an item are the truthiness of the
item's format fields. -/
theorem hasFormatFlag_mkMetadata (p : Platform) (cat : ContentCategory)
    (item : ContentItem) (f : ContentFormat) :
    hasFormatFlag (mkMetadata p cat item) f = strTruthy (item.getFormat f) := by
  cases f <;> rfl

/-- Decoration does not touch the format fields. -/
theorem decorate_getFormat (cat : ContentCategory) (item : ContentItem) (f : ContentFormat) :
    (decorate cat item).getFormat f = item.getFormat f := by
  cases f <;> rfl

/-- Membership of a format name in the assembled format list matches the
corresponding presence flag. -/
theorem formatName_mem_flagsList (m : ComponentMetadata) (f : ContentFormat) :
    formatName f ∈ formatFlagsList m ↔ hasFormatFlag m f = true := by
  cases f <;>
    cases hg : m.hasGherkin <;> cases hcn : m.hasCondensed <;>
    cases hd : m.hasDeveloperNotes <;> cases ha : m.hasAndroidNotes <;>
    cases hi : m.hasIOSNotes <;>
    simp [formatFlagsList, formatName, hasFormatFlag, hg, hcn, hd, ha, hi]

/-- `find?` is the head of `filter`. -/
theorem find?_eq_head_filter {α : Type} (p : α → Bool) (l : List α) :
    l.find? p = (l.filter p).head? := by
  induction l with
  | nil => rfl
  | cons a l ih =>
    by_cases h : p a = true
    · rw [List.find?_cons_of_pos l h, List.filter_cons_of_pos h]
      rfl
    · rw [List.find?_cons_of_neg l h, List.filter_cons_of_neg h, ih]

/-- `find?` on a list containing exactly one element satisfying the
predicate returns that element. -/
theorem find?_eq_some_of_unique {α : Type} (p : α → Bool) :
    ∀ (l : List α) (x : α), x ∈ l → p x = true → (∀ y ∈ l, p y = true → y = x) →
      l.find? p = some x
  | [], x, hx, _, _ => absurd hx (List.not_mem_nil x)
  | a :: l, x, hx, hpx, hu => by
    by_cases hpa : p a = true
    · have ha : a = x := hu a (List.mem_cons_self a l) hpa
      rw [List.find?_cons_of_pos l hpa, ha]
    · have hxl : x ∈ l := by
        rcases List.mem_cons.mp hx with rfl | h
        · exact absurd hpx hpa
        · exact h
      have hrec := find?_eq_some_of_unique p l x hxl hpx
        (fun y hy hpy => hu y (List.mem_cons_of_mem a hy) hpy)
      rw [List.find?_cons_of_neg l hpa, hrec]

/-- When the name `n` occurs on exactly one item across a platform's
categories, both lookup paths agree: `findComponent` returns that item
decorated with its category, its metadata is in the flattened metadata
list, and it is the only metadata entry named `n`. -/
theorem unique_name_analysis (p : Platform) (n : String) (cats : List ContentCategory)
    (it0 : ContentItem)
    (hu : (cats.flatMap fun cat => cat.children).filter (fun i => i.name == n) = [it0]) :
    ∃ cat0, cat0 ∈ cats ∧ it0 ∈ cat0.children ∧ it0.name = n ∧
      findComponent cats n = some (decorate cat0 it0) ∧
      mkMetadata p cat0 it0 ∈ flatMeta p cats ∧
      (∀ m ∈ flatMeta p cats, m.name = n → m = mkMetadata p cat0 it0) := by
  induction cats with
  | nil => simp at hu
  | cons cat rest ih =>
    rw [List.flatMap_cons, List.filter_append] at hu
    cases hfc : cat.children.filter (fun i => i.name == n) with
    | nil =>
      rw [hfc, List.nil_append] at hu
      obtain ⟨cat0, hmem, hit, hname, hfind, hmm, huniq⟩ := ih hu
      have hnone : cat.children.find? (fun i => i.name == n) = none := by
        rw [List.find?_eq_none]
        intro i hi
        simpa using List.filter_eq_nil_iff.mp hfc i hi
      refine ⟨cat0, List.mem_cons_of_mem cat hmem, hit, hname, ?_, ?_, ?_⟩
      · rw [findComponent, hnone]
        exact hfind
      · simp only [flatMeta, List.flatMap_cons]
        exact List.mem_append_right _ (by simpa [flatMeta] using hmm)
      · intro m hm hmn
        simp only [flatMeta, List.flatMap_cons, List.mem_append] at hm
        rcases hm with hml | hmr
        · rcases List.mem_map.mp hml with ⟨i, hi, rfl⟩
          have hin : i.name = n := hmn
          have hcontra := List.filter_eq_nil_iff.mp hfc i hi
          simp [hin] at hcontra
        · exact huniq m (by simpa [flatMeta] using hmr) hmn
    | cons it1 t =>
      rw [hfc] at hu
      simp only [List.cons_append, List.cons.injEq, List.append_eq_nil] at hu
      obtain ⟨rfl, ht, hfr⟩ := hu
      have hmemfil : it1 ∈ cat.children.filter (fun i => i.name == n) := by
        rw [hfc]
        exact List.mem_cons_self it1 t
      have hmemchild : it1 ∈ cat.children := (List.mem_filter.mp hmemfil).1
      have hpred : (it1.name == n) = true := (List.mem_filter.mp hmemfil).2
      have hname : it1.name = n := by simpa using hpred
      have hfind? : cat.children.find? (fun i => i.name == n) = some it1 := by
        rw [find?_eq_head_filter, hfc, ht]
        rfl
      refine ⟨cat, List.mem_cons_self cat rest, hmemchild, hname, ?_, ?_, ?_⟩
      · rw [findComponent, hfind?]
      · simp only [flatMeta, List.flatMap_cons]
        exact List.mem_append_left _ (List.mem_map_of_mem _ hmemchild)
      · intro m hm hmn
        simp only [flatMeta, List.flatMap_cons, List.mem_append] at hm
        rcases hm with hml | hmr
        · rcases List.mem_map.mp hml with ⟨i, hi, rfl⟩
          have hiname : i.name = n := hmn
          have hifil : i ∈ cat.children.filter (fun i => i.name == n) :=
            List.mem_filter.mpr ⟨hi, by simp [hiname]⟩
          rw [hfc, ht] at hifil
          have hieq : i = it1 := by simpa using hifil
          rw [hieq]
        · rcases List.mem_flatMap.mp hmr with ⟨ca, hca, hmca⟩
          rcases List.mem_map.mp hmca with ⟨i, hi, rfl⟩
          have hiname : i.name = n := hmn
          have hifil : i ∈ (rest.flatMap fun cat => cat.children).filter
              (fun i => i.name == n) :=
            List.mem_filter.mpr ⟨List.mem_flatMap.mpr ⟨ca, hca, hi⟩, by simp [hiname]⟩
          rw [hfr] at hifil
          simp at hifil

/-- `strTruthy` characterization. -/
theorem strTruthy_eq_true_iff (o : Option String) :
    strTruthy o = true ↔ ∃ s, o = some s ∧ s.isEmpty = false := by
  cases o with
  | none => simp [strTruthy]
  | some s => simp [strTruthy]

/-- On a loaded state, `listComponents` with no filter is the sorted
flattened metadata. -/
theorem listComponents_loaded_flat (st : LoaderState) (c : ContentStructure)
    (cats : List ContentCategory) (p : Platform)
    (hc : st.content = some c) (hp : c.get p = some cats) :
    listComponents st p none = .ok ((flatMeta p cats).insertionSort byName) :=
  listComponents_loaded st c cats p hc hp

/-- On a loaded state, when `n` occurs on exactly one item,
`getAvailableFormats` is the flag list of that item's metadata. -/
theorem getAvailableFormats_unique (st : LoaderState) (c : ContentStructure)
    (cats : List ContentCategory) (p : Platform) (n : String) (it0 : ContentItem)
    (cat0 : ContentCategory)
    (hc : st.content = some c) (hp : c.get p = some cats)
    (hname : it0.name = n)
    (hmm : mkMetadata p cat0 it0 ∈ flatMeta p cats)
    (huniq : ∀ m ∈ flatMeta p cats, m.name = n → m = mkMetadata p cat0 it0) :
    getAvailableFormats st p n = formatFlagsList (mkMetadata p cat0 it0) := by
  have hfind : ((flatMeta p cats).insertionSort byName).find? (fun m => m.name == n) =
      some (mkMetadata p cat0 it0) := by
    refine find?_eq_some_of_unique _ _ _ ((List.mem_insertionSort byName).mpr hmm) ?_ ?_
    · simpa using hname
    · intro y hy hpy
      exact huniq y ((List.mem_insertionSort byName).mp hy) (by simpa using hpy)
  rw [getAvailableFormats, listComponents_loaded_flat st c cats p hc hp]
  simp only [hfind]

/-- C3: for a component present (uniquely) in platform `p`, every format in
`getAvailableFormats` yields non-empty text from `getComponentContent`, and
every format outside it fails `FormatUnavailable` (not `NotFound`). -/
theorem c3_formats_roundtrip (st : LoaderState) (c : ContentStructure)
    (cats : List ContentCategory) (p : Platform) (n : String) (it0 : ContentItem)
    (f : ContentFormat)
    (hc : st.content = some c) (hp : c.get p = some cats)
    (hu : (cats.flatMap fun cat => cat.children).filter (fun i => i.name == n) = [it0]) :
    (formatName f ∈ getAvailableFormats st p n →
      ∃ s, getComponentContent st p n f = .ok s ∧ s.isEmpty = false) ∧
    (formatName f ∉ getAvailableFormats st p n →
      getComponentContent st p n f = .error (.formatUnavailable (formatName f) n)) := by
  obtain ⟨cat0, hcat0, hit0, hname, hfc, hmm, huniq⟩ := unique_name_analysis p n cats it0 hu
  have hgaf := getAvailableFormats_unique st c cats p n it0 cat0 hc hp hname hmm huniq
  have hgc : getComponent st p n = .ok (decorate cat0 it0) := by
    simp [getComponent, hc, hp, hfc]
  have hflag : formatName f ∈ getAvailableFormats st p n ↔
      strTruthy (it0.getFormat f) = true := by
    rw [hgaf, formatName_mem_flagsList, hasFormatFlag_mkMetadata]
  constructor
  · intro hin
    obtain ⟨s, hs, hemp⟩ := (strTruthy_eq_true_iff _).mp (hflag.mp hin)
    refine ⟨s, ?_, hemp⟩
    rw [getComponentContent, hgc]
    simp [decorate_getFormat, hs, hemp]
  · intro hout
    have hf : ¬ strTruthy (it0.getFormat f) = true := fun h => hout (hflag.mpr h)
    rw [getComponentContent, hgc]
    cases hgf : it0.getFormat f with
    | none => simp [decorate_getFormat, hgf]
    | some s =>
      have hse : s.isEmpty = true := by
        by_contra hne
        exact hf ((strTruthy_eq_true_iff _).mpr ⟨s, hgf, by simpa using hne⟩)
      simp [decorate_getFormat, hgf, hse]

/-- A component whose `condensed` field holds the empty string. -/
def itemCard : ContentItem :=
  { label := "Card", name := "card", gherkin := some "Given a card...",
    condensed := some "" }

/-- Category holding `itemCard`. -/
def catCards : ContentCategory := { label := "Cards", name := "cards", children := [itemCard] }

/-- Document holding `catCards`. -/
def docCards : ContentStructure := { web := some [catCards], native := some [] }

/-- The loader after successfully initializing on `docCards`. -/
def cardState : LoaderState := (initLoader freshLoader (some docCards)).1

/-- C3 witness: at the loaded sample corpus the `condensed` format of `card`
holds the empty string, is excluded from `getAvailableFormats`, and
`getComponentContent` fails `FormatUnavailable` for it. -/
theorem c3_formats_roundtrip_witness :
    (formatName .condensed ∈ getAvailableFormats cardState .web "card" →
      ∃ s, getComponentContent cardState .web "card" .condensed = .ok s ∧
        s.isEmpty = false) ∧
    (formatName .condensed ∉ getAvailableFormats cardState .web "card" →
      getComponentContent cardState .web "card" .condensed =
        .error (.formatUnavailable (formatName .condensed) "card")) :=
  c3_formats_roundtrip cardState docCards [catCards] .web "card" itemCard .condensed
    rfl rfl (by decide)

/-- C10: the per-format presence flags of the metadata record that
`listComponents` produces (and `getAvailableFormats` consults) are true
exactly when the corresponding field is present and non-empty; an
empty-string field is reported absent and excluded from
`getAvailableFormats`. -/
theorem c10_presence_flags (st : LoaderState) (c : ContentStructure)
    (cats : List ContentCategory) (p : Platform) (n : String) (it0 : ContentItem)
    (hc : st.content = some c) (hp : c.get p = some cats)
    (hu : (cats.flatMap fun cat => cat.children).filter (fun i => i.name == n) = [it0]) :
    ∃ comps m, listComponents st p none = .ok comps ∧
      comps.find? (fun cm => cm.name == n) = some m ∧
      (∀ f : ContentFormat, hasFormatFlag m f = true ↔
        ∃ s, it0.getFormat f = some s ∧ s.isEmpty = false) ∧
      (∀ f : ContentFormat,
        formatName f ∈ getAvailableFormats st p n ↔ hasFormatFlag m f = true) := by
  obtain ⟨cat0, hcat0, hit0, hname, hfc, hmm, huniq⟩ := unique_name_analysis p n cats it0 hu
  have hgaf := getAvailableFormats_unique st c cats p n it0 cat0 hc hp hname hmm huniq
  refine ⟨(flatMeta p cats).insertionSort byName, mkMetadata p cat0 it0,
    listComponents_loaded_flat st c cats p hc hp, ?_, ?_, ?_⟩
  · refine find?_eq_some_of_unique _ _ _ ((List.mem_insertionSort byName).mpr hmm) ?_ ?_
    · simpa using hname
    · intro y hy hpy
      exact huniq y ((List.mem_insertionSort byName).mp hy) (by simpa using hpy)
  · intro f
    rw [hasFormatFlag_mkMetadata, strTruthy_eq_true_iff]
  · intro f
    rw [hgaf, formatName_mem_flagsList]

/-- C10 witness: on the sample corpus, `card` reports `gherkin` present and
its empty-string `condensed` absent, and `getAvailableFormats` mirrors the
flags. -/
theorem c10_presence_flags_witness :
    ∃ comps m, listComponents cardState .web none = .ok comps ∧
      comps.find? (fun cm => cm.name == "card") = some m ∧
      (∀ f : ContentFormat, hasFormatFlag m f = true ↔
        ∃ s, itemCard.getFormat f = some s ∧ s.isEmpty = false) ∧
      (∀ f : ContentFormat,
        formatName f ∈ getAvailableFormats cardState .web "card" ↔
          hasFormatFlag m f = true) :=
  c10_presence_flags cardState docCards [catCards] .web "card" itemCard rfl rfl (by decide)
